import Mathlib

/-!
Shallow embedding of the per-peer reliable-datagram connection core
(package reliable, file conn.go).  Machine integers are modelled as
naturals with explicit reduction modulo 2^16 (sequence numbers, ring
indices) and structure fields mirror the Go struct fields.  The shared
mutex and the condition-variable wait are modelled by stating theorems
under the hypothesis that the wait-loop exit condition holds; the
transport is modelled as always transmitting successfully, with the
transmitted headers accumulated in the `sent` field.  The buffer pool
is modelled by a fresh-buffer counter `nextBuf` (pool.Get) and a list
`released` of buffers handed back (pool.Put).
-/

namespace Reliable

/-- 2^16, the size of the sequence-number space. -/
def M : ℕ := 65536

/-- 2^15, half the sequence-number space. -/
def HALF : ℕ := 32768

/-- Modelled from the spec: the sentinel value 0xFFFFFFFF stored by
emptyBufferIndices (a helper of this package outside conn.go) to mark a
ring slot as empty. -/
def SENTINEL : ℕ := 4294967295

/-- Modelled from the spec: ACKBitsetSize, the constant 32 (the ack
bitfield reports up to 32 recent packets); declared outside conn.go. -/
def ACKBitsetSize : ℕ := 32

/-- uint16 addition with wrap-around. -/
def add16 (a b : ℕ) : ℕ := (a + b) % M

/-- uint16 subtraction with wrap-around. -/
def sub16 (a b : ℕ) : ℕ := (a + M - b % M) % M

/-- Modelled from the spec: seq.GT from the external lithdew/seq
library.  GT a b holds iff (a - b) mod 2^16 lies in (0, 2^15). -/
def seqGT (a b : ℕ) : Bool := decide (0 < sub16 a b ∧ sub16 a b < HALF)

/-- One entry of the send queue: the writtenPacket struct. -/
structure WrittenPacket where
  buf : Option ℕ
  acked : Bool
  written : ℕ
  resent : ℕ
deriving DecidableEq, Repr

/-- The zero value of writtenPacket (fresh wqe entries). -/
def emptyEntry : WrittenPacket := ⟨none, false, 0, 0⟩

/-- The semantic fields of the packet header. -/
structure PacketHeader where
  sequence : ℕ
  ack : ℕ
  ackBits : ℕ
  unordered : Bool
  empty : Bool
deriving DecidableEq, Repr

/-- The zero value of PacketHeader. -/
def emptyHeader : PacketHeader := ⟨0, 0, 0, false, false⟩

/-- The connection state (struct Conn), with the pool and the transport
modelled by `released`, `nextBuf` and `sent`. -/
structure Conn where
  die : Bool
  lui : ℕ
  oui : ℕ
  ls : ℕ
  wi : ℕ
  ri : ℕ
  wq : List ℕ
  rq : List ℕ
  wqe : List WrittenPacket
  released : List ℕ
  nextBuf : ℕ
  sent : List PacketHeader
deriving DecidableEq, Repr

/-- The error value io.EOF returned by writePacket on a closed
connection. -/
inductive WErr where
  | eof
deriving DecidableEq, Repr

/-- One iteration of the prepareAckBits loop: set bit i when
rq[(ack-i) mod len(rq)] records ack-i. -/
def prepStep (rq : List ℕ) (ack bits i : ℕ) : ℕ :=
  if rq.getD (sub16 ack i % rq.length) 0 = sub16 ack i then bits ||| (1 <<< i) else bits

/-- prepareAckBits: bit i is set iff rq[(ack-i) mod len(rq)] records
ack-i, for i in 0..31. -/
def prepareAckBits (rq : List ℕ) (ack : ℕ) : ℕ :=
  (List.range ACKBitsetSize).foldl (prepStep rq ack) 0

/-- nextAckDetails: ack = ri - 1 and its bitfield. -/
def nextAckDetails (c : Conn) : ℕ × ℕ :=
  (sub16 c.ri 1, prepareAckBits c.rq (sub16 c.ri 1))

/-- The exit condition of the waitUntilReaderAvailable loop: the
connection died, or wi + 1 does not exceed oui + len(rq) in
serial-number order. -/
def waitCond (c : Conn) : Prop :=
  c.die = true ∨ seqGT (add16 c.wi 1) (add16 c.oui c.rq.length) = false

/-- waitForNextWriteDetails: after the writer-gate wait, take idx = wi,
increment wi, compute ack details, and report ok = not die. -/
def waitForNextWriteDetails (c : Conn) : Conn × ℕ × ℕ × ℕ × Bool :=
  let idx := c.wi
  let c1 : Conn := { c with wi := add16 c.wi 1 }
  (c1, idx, sub16 c1.ri 1, prepareAckBits c1.rq (sub16 c1.ri 1), !c1.die)

/-- setSentinelRange l st cnt overwrites the cnt slots starting at st
with the sentinel (emptyBufferIndices on a slice). -/
def setSentinelRange (l : List ℕ) (st cnt : ℕ) : List ℕ :=
  (List.range cnt).foldl (fun l k => l.set (st + k) SENTINEL) l

/-- The shared body of clearWrites and clearReads: empty the ring slots
of the sequences start..endIdx (uint16 span). -/
def clearRing (q : List ℕ) (start endIdx : ℕ) : List ℕ :=
  let count := add16 (sub16 endIdx start) 1
  let size := q.length
  if size ≤ count then List.replicate q.length SENTINEL
  else
    let st := start % size
    let rem := size - st
    if count ≤ rem then setSentinelRange q st count
    else setSentinelRange (setSentinelRange q st rem) 0 (count - rem)

/-- trackWrite: record a written reliable packet in send slot
idx mod len(wq), returning any overwritten buffer to the pool. -/
def trackWrite (c : Conn) (idx b now : ℕ) : Conn :=
  let c1 : Conn :=
    if seqGT (add16 idx 1) c.wi = true then
      { c with wq := clearRing c.wq c.wi idx, wi := add16 idx 1 }
    else c
  let i := idx % c1.wq.length
  let e := c1.wqe.getD i emptyEntry
  let c2 : Conn :=
    match e.buf with
    | some ob => { c1 with released := c1.released ++ [ob] }
    | none => c1
  { c2 with wq := c2.wq.set i idx, wqe := c2.wqe.set i ⟨some b, false, now, 0⟩ }

/-- write: allocate a buffer from the pool, serialize, track reliable
packets in the send window, transmit, and return unordered buffers to
the pool. -/
def write (c : Conn) (h : PacketHeader) (now : ℕ) : Conn :=
  let b := c.nextBuf
  let c1 : Conn := { c with nextBuf := c.nextBuf + 1 }
  let c2 := if h.unordered = true then c1 else trackWrite c1 h.sequence b now
  let c3 : Conn := { c2 with sent := c2.sent ++ [h] }
  if h.unordered = true then { c3 with released := c3.released ++ [b] } else c3

/-- The loop condition of trackAcked: lui is at most ack in plain
unsigned 16-bit comparison and the receive slot of lui records lui. -/
def ackCond (rq : List ℕ) (ack x : ℕ) : Prop :=
  x ≤ ack ∧ rq.getD (x % rq.length) 0 = x

instance (rq : List ℕ) (ack x : ℕ) : Decidable (ackCond rq ack x) := by
  unfold ackCond; infer_instance

/-- The fuel-bounded advance loop of trackAcked. -/
def luiAdvance (rq : List ℕ) (ack : ℕ) : ℕ → ℕ → ℕ
  | lui, 0 => lui
  | lui, fuel + 1 =>
    if ackCond rq ack lui then luiAdvance rq ack (add16 lui 1) fuel else lui

/-- trackAcked: advance lui over recorded receive slots up to ack and
update the last-send timestamp. -/
def trackAcked (c : Conn) (ack now : ℕ) : Conn :=
  { c with lui := luiAdvance c.rq ack c.lui M, ls := now }

/-- The fuel-bounded advance loop of trackUnacked. -/
def ouiAdvance (wq : List ℕ) (wqe : List WrittenPacket) : ℕ → ℕ → ℕ
  | oui, 0 => oui
  | oui, fuel + 1 =>
    if wq.getD (oui % wq.length) 0 = oui ∧ (wqe.getD (oui % wq.length) emptyEntry).acked = true
    then ouiAdvance wq wqe (add16 oui 1) fuel else oui

/-- trackUnacked: advance oui over acked send slots (and broadcast the
writer-gate, a no-op in this sequential model). -/
def trackUnacked (c : Conn) : Conn :=
  { c with oui := ouiAdvance c.wq c.wqe c.oui M }

/-- writePacket: the common body of WriteReliablePacket and
WriteUnreliablePacket.  Reliable writes go through the writer gate and
fail with io.EOF on a closed connection. -/
def writePacket (c : Conn) (reliable : Bool) (now : ℕ) : Conn × Option WErr :=
  if reliable = true then
    let r := waitForNextWriteDetails c
    if r.2.2.2.2 = false then (r.1, some WErr.eof)
    else
      let c2 := trackAcked r.1 r.2.2.1 now
      (write c2 ⟨r.2.1, r.2.2.1, r.2.2.2.1, false, false⟩ now, none)
  else
    let d := nextAckDetails c
    let c2 := trackAcked c d.1 now
    (write c2 ⟨0, d.1, d.2, true, false⟩ now, none)

/-- WriteReliablePacket. -/
def WriteReliablePacket (c : Conn) (now : ℕ) : Conn × Option WErr :=
  writePacket c true now

/-- WriteUnreliablePacket. -/
def WriteUnreliablePacket (c : Conn) (now : ℕ) : Conn × Option WErr :=
  writePacket c false now

/-- One step of readAckBits for bit k: if the bit is set and send slot
(ack-k) mod len(wq) still records ack-k unacked, mark it acked and
return its buffer to the pool. -/
def readAckStep (ack bits : ℕ) (c : Conn) (k : ℕ) : Conn :=
  if bits.testBit k = false then c
  else
    let s := sub16 ack k
    let i := s % c.wq.length
    if c.wq.getD i 0 ≠ s ∨ (c.wqe.getD i emptyEntry).acked = true then c
    else
      let e := c.wqe.getD i emptyEntry
      let c2 : Conn :=
        match e.buf with
        | some ob => { c with released := c.released ++ [ob] }
        | none => c
      { c2 with wqe := c2.wqe.set i ⟨none, true, e.written, e.resent⟩ }

/-- readAckBits: apply the 32 ack bits against the send window. -/
def readAckBits (c : Conn) (ack bits : ℕ) : Conn :=
  (List.range ACKBitsetSize).foldl (readAckStep ack bits) c

/-- trackRead: record an inbound sequence in the receive window.
Returns false on a duplicate (no state change); otherwise clears the
gap and advances ri when the sequence is new in serial order, then
stores the sequence in its slot. -/
def trackRead (c : Conn) (idx : ℕ) : Conn × Bool :=
  let i := idx % c.rq.length
  if c.rq.getD i 0 = idx then (c, false)
  else
    let c1 : Conn :=
      if seqGT (add16 idx 1) c.ri = true then
        { c with rq := clearRing c.rq c.ri idx, ri := add16 idx 1 }
      else c
    ({ c1 with rq := c1.rq.set i idx }, true)

/-- The 32-consecutive-receipts test of createAckIfNecessary. -/
def windowFilled (rq : List ℕ) (lui : ℕ) : Bool :=
  (List.range ACKBitsetSize).all
    (fun i => decide (rq.getD (add16 lui i % rq.length) 0 = add16 lui i))

/-- createAckIfNecessary: when 32 consecutive sequences from lui are
all recorded, advance lui by 32, stamp the send time, consume a send
sequence from wi, and build a standalone ack header (Empty = true);
needed = not die. -/
def createAckIfNecessary (c : Conn) (now : ℕ) : Conn × PacketHeader × Bool :=
  if windowFilled c.rq c.lui = true then
    let lui := add16 c.lui ACKBitsetSize
    let c1 : Conn := { c with lui := lui, ls := now }
    let s := c1.wi
    let c2 : Conn := { c1 with wi := add16 c1.wi 1 }
    let ack := sub16 lui 1
    (c2, ⟨s, ack, prepareAckBits c2.rq ack, false, true⟩, !c2.die)
  else (c, emptyHeader, false)

/-- The fuel-bounded loop of writeAcksIfNecessary. -/
def ackLoop (now : ℕ) : ℕ → Conn → Conn
  | 0, c => c
  | fuel + 1, c =>
    let r := createAckIfNecessary c now
    if r.2.2 = true then ackLoop now fuel (write r.1 r.2.1 now) else r.1

/-- writeAcksIfNecessary: emit standalone acks while full 32-windows of
receipts have accumulated. -/
def writeAcksIfNecessary (c : Conn) (now : ℕ) : Conn :=
  ackLoop now 2049 c

/-- Read: process an inbound packet.  The returned Bool reports whether
the packet handler call site was reached. -/
def Read (c : Conn) (h : PacketHeader) (now : ℕ) : Conn × Bool :=
  let c1 := readAckBits c h.ack h.ackBits
  let tr := if h.unordered = true then (c1, true) else trackRead c1 h.sequence
  if tr.2 = false then (tr.1, false)
  else
    let c3 := trackUnacked tr.1
    let c4 := writeAcksIfNecessary c3 now
    (c4, !h.empty)

/-- close (the internal idempotent closer): set die, signal the exit
channel and broadcast the writer-gate; false if already closed. -/
def close (c : Conn) : Conn × Bool :=
  if c.die = true then (c, false) else ({ c with die := true }, true)

/-- Close: the public close entry point. -/
def Close (c : Conn) : Conn :=
  (close c).1

/-! ### Concrete states used by witnesses and counterexamples -/

/-- A 32-slot empty receive ring. -/
def rq32 : List ℕ := List.replicate 32 SENTINEL

/-- A 32-slot empty send ring. -/
def wq32 : List ℕ := List.replicate 32 SENTINEL

/-- 32 fresh send-queue entries. -/
def wqe32 : List WrittenPacket := List.replicate 32 emptyEntry

/-- A freshly constructed connection with 32-slot windows. -/
def baseConn : Conn := ⟨false, 0, 0, 0, 0, 0, wq32, rq32, wqe32, [], 0, []⟩

/-- A closed connection. -/
def cClosed : Conn := { baseConn with die := true }

/-- A connection whose next send sequence is 5. -/
def c9s : Conn := { baseConn with wi := 5 }

/-- A receive ring recording only sequence 65535 (slot 31). -/
def rqC3 : List ℕ := (List.replicate 32 SENTINEL).set 31 65535

/-- A connection with lui at the top of the sequence space and 65535
received, facing an ack that wrapped to 0. -/
def cC3 : Conn := { baseConn with lui := 65535, rq := rqC3 }

/-- A receive ring with sequences 0..31 all recorded. -/
def rqF : List ℕ := List.range 32

/-- A connection whose receive window holds one full 32-ack window. -/
def cF : Conn := { baseConn with rq := rqF, ri := 32 }

/-- A receive ring with 0..30 recorded and slot 31 empty. -/
def rqP : List ℕ := (List.range 32).set 31 SENTINEL

/-- A connection one receipt short of a full ack window. -/
def cP : Conn := { baseConn with rq := rqP, ri := 31 }

/-- The inbound reliable packet with sequence 31 that completes the
window of cP. -/
def hIn : PacketHeader := ⟨31, 0, 0, false, false⟩

/-- A receive ring recording sequence 3. -/
def rqD : List ℕ := (List.replicate 32 SENTINEL).set 3 3

/-- A connection that has already received sequence 3. -/
def cD : Conn := { baseConn with rq := rqD, ri := 4 }

/-- A duplicate inbound packet carrying sequence 3. -/
def hDup : PacketHeader := ⟨3, 0, 0, false, false⟩

/-- A receive ring recording sequence 5. -/
def rq10 : List ℕ := (List.replicate 32 SENTINEL).set 5 5

/-- A connection with ri = 10 that recorded sequence 5. -/
def c10 : Conn := { baseConn with rq := rq10, ri := 10 }

/-- A stale (older than ri, non-duplicate) inbound packet. -/
def hSt : PacketHeader := ⟨2, 0, 0, false, false⟩

/-- A send ring with sequences 0 and 1 live. -/
def wqA : List ℕ := ((List.replicate 32 SENTINEL).set 0 0).set 1 1

/-- Send entries: slot 0 unacked with buffer 4, slot 1 acked with
buffer 5. -/
def wqeA : List WrittenPacket :=
  ((List.replicate 32 emptyEntry).set 0 ⟨some 4, false, 0, 0⟩).set 1 ⟨some 5, true, 0, 0⟩

/-- A connection with two live send entries. -/
def cA : Conn := { baseConn with wq := wqA, wqe := wqeA }

/-- A connection retaining buffer 7 in live send slot 0. -/
def c8s : Conn :=
  { baseConn with wq := (List.replicate 32 SENTINEL).set 0 0,
                  wqe := (List.replicate 32 emptyEntry).set 0 ⟨some 7, false, 0, 0⟩ }

/-! ### Helper lemmas -/

/-- Reading back the slot just written. -/
lemma getD_set_self {α : Type} (l : List α) (i : ℕ) (a d : α) (h : i < l.length) :
    (l.set i a).getD i d = a := by
  simp [List.getD_eq_getElem?_getD, List.getElem?_set, h]

/-- Writing one slot leaves the others unchanged. -/
lemma getD_set_ne {α : Type} (l : List α) (a d : α) {i j : ℕ} (h : i ≠ j) :
    (l.set i a).getD j d = l.getD j d := by
  simp [List.getD_eq_getElem?_getD, List.getElem?_set, h]

/-- A projection respected by every fold step is respected by the
fold. -/
lemma foldl_preserves {β : Type} (g : Conn → β) (f : Conn → ℕ → Conn)
    (hf : ∀ c k, g (f c k) = g c) :
    ∀ (l : List ℕ) (c : Conn), g (l.foldl f c) = g c := by
  intro l
  induction l with
  | nil => intro c; rfl
  | cons a t ih => intro c; simp only [List.foldl_cons]; rw [ih, hf]

/-- A fold whose every step fixes the state fixes the state. -/
lemma foldl_fixed {f : Conn → ℕ → Conn} {t : Conn} :
    ∀ l : List ℕ, (∀ a ∈ l, f t a = t) → l.foldl f t = t := by
  intro l
  induction l with
  | nil => intro _; rfl
  | cons x xs ih =>
    intro h
    simp only [List.foldl_cons, h x (List.mem_cons_self x xs)]
    exact ih fun a ha => h a (List.mem_cons_of_mem x ha)

/-- Subtracting a sequence from itself gives 0. -/
lemma sub16_self (a : ℕ) : sub16 a a = 0 := by
  unfold sub16 M; omega

/-- seqGT is irreflexive. -/
lemma seqGT_self (a : ℕ) : seqGT a a = false := by
  simp [seqGT, sub16_self]

/-- Advancing by 32 and stepping back 1 is advancing by 31. -/
lemma sub16_add16 (a : ℕ) : sub16 (add16 a 32) 1 = add16 a 31 := by
  unfold sub16 add16 M; omega

/-- trackWrite does not touch the sent log. -/
lemma trackWrite_sent (c : Conn) (idx b now : ℕ) : (trackWrite c idx b now).sent = c.sent := by
  unfold trackWrite
  dsimp only
  split <;> split <;> rfl

/-- trackWrite does not touch the receive ring. -/
lemma trackWrite_rq (c : Conn) (idx b now : ℕ) : (trackWrite c idx b now).rq = c.rq := by
  unfold trackWrite
  dsimp only
  split <;> split <;> rfl

/-- trackWrite does not touch the next expected receive sequence. -/
lemma trackWrite_ri (c : Conn) (idx b now : ℕ) : (trackWrite c idx b now).ri = c.ri := by
  unfold trackWrite
  dsimp only
  split <;> split <;> rfl

/-- write appends exactly the transmitted header to the sent log. -/
lemma write_sent (c : Conn) (h : PacketHeader) (now : ℕ) :
    (write c h now).sent = c.sent ++ [h] := by
  unfold write
  by_cases hu : h.unordered = true <;> simp [hu, trackWrite_sent]

/-- write does not touch the receive ring. -/
lemma write_rq (c : Conn) (h : PacketHeader) (now : ℕ) : (write c h now).rq = c.rq := by
  unfold write
  by_cases hu : h.unordered = true <;> simp [hu, trackWrite_rq]

/-- write does not touch the next expected receive sequence. -/
lemma write_ri (c : Conn) (h : PacketHeader) (now : ℕ) : (write c h now).ri = c.ri := by
  unfold write
  by_cases hu : h.unordered = true <;> simp [hu, trackWrite_ri]

/-- createAckIfNecessary does not touch the receive ring. -/
lemma createAck_rq (c : Conn) (now : ℕ) : (createAckIfNecessary c now).1.rq = c.rq := by
  unfold createAckIfNecessary
  split <;> rfl

/-- createAckIfNecessary does not touch the next expected receive
sequence. -/
lemma createAck_ri (c : Conn) (now : ℕ) : (createAckIfNecessary c now).1.ri = c.ri := by
  unfold createAckIfNecessary
  split <;> rfl

/-- The standalone-ack loop does not touch the receive ring. -/
lemma ackLoop_rq (now : ℕ) : ∀ (fuel : ℕ) (c : Conn), (ackLoop now fuel c).rq = c.rq := by
  intro fuel
  induction fuel with
  | zero => intro c; rfl
  | succ f ih =>
    intro c
    unfold ackLoop
    dsimp only
    split
    · rw [ih, write_rq, createAck_rq]
    · exact createAck_rq c now

/-- The standalone-ack loop does not touch the next expected receive
sequence. -/
lemma ackLoop_ri (now : ℕ) : ∀ (fuel : ℕ) (c : Conn), (ackLoop now fuel c).ri = c.ri := by
  intro fuel
  induction fuel with
  | zero => intro c; rfl
  | succ f ih =>
    intro c
    unfold ackLoop
    dsimp only
    split
    · rw [ih, write_ri, createAck_ri]
    · exact createAck_ri c now

/-- One ack-bit step does not touch the receive ring. -/
lemma readAckStep_rq (a b : ℕ) (c : Conn) (k : ℕ) : (readAckStep a b c k).rq = c.rq := by
  unfold readAckStep
  dsimp only
  split
  · rfl
  · split
    · rfl
    · split <;> rfl

/-- One ack-bit step does not touch the next expected receive
sequence. -/
lemma readAckStep_ri (a b : ℕ) (c : Conn) (k : ℕ) : (readAckStep a b c k).ri = c.ri := by
  unfold readAckStep
  dsimp only
  split
  · rfl
  · split
    · rfl
    · split <;> rfl

/-- One ack-bit step does not touch the send ring tags. -/
lemma readAckStep_wq (a b : ℕ) (c : Conn) (k : ℕ) : (readAckStep a b c k).wq = c.wq := by
  unfold readAckStep
  dsimp only
  split
  · rfl
  · split
    · rfl
    · split <;> rfl

/-- One ack-bit step keeps the length of the send-entry list. -/
lemma readAckStep_wqe_length (a b : ℕ) (c : Conn) (k : ℕ) :
    (readAckStep a b c k).wqe.length = c.wqe.length := by
  unfold readAckStep
  dsimp only
  split
  · rfl
  · split
    · rfl
    · split <;> simp [List.length_set]

/-- readAckBits does not touch the receive ring. -/
lemma readAckBits_rq (c : Conn) (a b : ℕ) : (readAckBits c a b).rq = c.rq :=
  foldl_preserves Conn.rq (readAckStep a b) (readAckStep_rq a b) _ c

/-- readAckBits does not touch the next expected receive sequence. -/
lemma readAckBits_ri (c : Conn) (a b : ℕ) : (readAckBits c a b).ri = c.ri :=
  foldl_preserves Conn.ri (readAckStep a b) (readAckStep_ri a b) _ c

/-- readAckBits does not touch the send ring tags. -/
lemma readAckBits_wq (c : Conn) (a b : ℕ) : (readAckBits c a b).wq = c.wq :=
  foldl_preserves Conn.wq (readAckStep a b) (readAckStep_wq a b) _ c

/-- readAckBits keeps the length of the send-entry list. -/
lemma readAckBits_wqe_length (c : Conn) (a b : ℕ) :
    (readAckBits c a b).wqe.length = c.wqe.length :=
  foldl_preserves (fun c => c.wqe.length) (readAckStep a b) (readAckStep_wqe_length a b) _ c

/-! ### Claim theorems -/

/-- Claim C8 counterexample: Close does not release retained buffers.
On a connection retaining buffer 7 in live send slot 0, after Close the
slot still holds buffer 7 and nothing was returned to the pool, so the
claim that every retained buffer is returned on Close is false. -/
theorem c8_counterexample :
    ((Close c8s).wqe.getD 0 emptyEntry).buf = some 7 ∧ (Close c8s).released = [] := by
  decide

/-- Claim C8 (amended): the first Close sets the closed flag (and wakes
writers), but it does not touch the send-queue entries and returns no
buffer to the pool; retained buffers are only released on ack arrival
or slot overwrite. -/
theorem c8_close_keeps_buffers (c : Conn) :
    (Close c).die = true ∧ (Close c).wqe = c.wqe ∧ (Close c).released = c.released := by
  unfold Close close
  by_cases h : c.die = true <;> simp [h]

/-- Claim C9 counterexample: an unreliable write does not carry the
current wi as its header sequence.  With wi = 5, the transmitted
header carries sequence 0. -/
theorem c9_counterexample :
    c9s.wi = 5 ∧ (writePacket c9s false 3).1.sent = [⟨0, 65535, 0, true, false⟩] ∧
      ((writePacket c9s false 3).1.sent.getD 0 emptyHeader).sequence ≠ c9s.wi := by
  decide

/-- Claim C9 (amended): for every call to WriteUnreliablePacket, the
transmitted packet carries header sequence 0 (the Go zero value of
idx): wi is neither read nor advanced, no send-window state is stored,
and the buffer is returned to the pool after transmission. -/
theorem c9_unreliable_sequence_zero (c : Conn) (now : ℕ) :
    (writePacket c false now).2 = none ∧
    (writePacket c false now).1.sent =
      c.sent ++ [⟨0, sub16 c.ri 1, prepareAckBits c.rq (sub16 c.ri 1), true, false⟩] ∧
    (writePacket c false now).1.wi = c.wi ∧
    (writePacket c false now).1.wq = c.wq ∧
    (writePacket c false now).1.wqe = c.wqe ∧
    (writePacket c false now).1.released = c.released ++ [c.nextBuf] :=
  ⟨rfl, rfl, rfl, rfl, rfl, rfl⟩

/-- Claim C2 counterexample: after Close, an unreliable write still
succeeds and transmits.  On a closed connection, WriteUnreliablePacket
returns no error and appends a packet to the transmitted log, so the
claim that every write after Close returns the Closed error and does
not transmit is false. -/
theorem c2_counterexample :
    cClosed.die = true ∧ (writePacket cClosed false 0).2 = none ∧
      (writePacket cClosed false 0).1.sent = cClosed.sent ++ [⟨0, 65535, 0, true, false⟩] := by
  decide

/-- Claim C2 (amended): after Close has been called, no reliable write
succeeds: WriteReliablePacket returns io.EOF and transmits nothing.
(WriteUnreliablePacket is not gated on closure and may still
transmit.) -/
theorem c2_closed_reliable_eof (c : Conn) (now : ℕ) (h : c.die = true) :
    (writePacket c true now).2 = some WErr.eof ∧ (writePacket c true now).1.sent = c.sent := by
  unfold writePacket waitForNextWriteDetails
  simp [h]

/-- Witness for C2 at a concrete closed connection. -/
theorem c2_closed_reliable_eof_witness :
    (writePacket cClosed true 0).2 = some WErr.eof ∧
      (writePacket cClosed true 0).1.sent = cClosed.sent :=
  c2_closed_reliable_eof cClosed 0 (by decide)

/-- Claim C1: under the writer-gate exit condition (connection closed,
or wi + 1 does not exceed oui + len(rq) in serial order), any packet a
reliable write actually transmits carries sequence wi, and at that
assignment GT(wi + 1, oui + len(rq)) is false. -/
theorem c1_reliable_write_gated (c : Conn) (now : ℕ) (hw : waitCond c) :
    ∀ hd : PacketHeader, (writePacket c true now).1.sent = c.sent ++ [hd] →
      hd.sequence = c.wi ∧ seqGT (add16 c.wi 1) (add16 c.oui c.rq.length) = false := by
  intro hd hsent
  by_cases hdie : c.die = true
  · exfalso
    unfold writePacket waitForNextWriteDetails at hsent
    simp [hdie] at hsent
  · have hdie2 : c.die = false := by revert hdie; cases c.die <;> simp
    have hgt : seqGT (add16 c.wi 1) (add16 c.oui c.rq.length) = false :=
      hw.resolve_left hdie
    refine ⟨?_, hgt⟩
    unfold writePacket waitForNextWriteDetails at hsent
    simp [hdie2] at hsent
    rw [write_sent] at hsent
    rw [show (trackAcked { c with die := false, wi := add16 c.wi 1 } (sub16 c.ri 1) now).sent = c.sent from rfl] at hsent
    have hhd := List.append_cancel_left hsent
    simp at hhd
    rw [hhd.symm]

/-- Witness for C1 at a concrete open connection with room in the
window. -/
theorem c1_reliable_write_gated_witness :
    (⟨0, 65535, 0, false, false⟩ : PacketHeader).sequence = baseConn.wi ∧
      seqGT (add16 baseConn.wi 1) (add16 baseConn.oui baseConn.rq.length) = false :=
  c1_reliable_write_gated baseConn 0 (by right; decide) ⟨0, 65535, 0, false, false⟩ (by decide)

/-- trackUnacked does not touch the receive ring. -/
lemma trackUnacked_rq (c : Conn) : (trackUnacked c).rq = c.rq := rfl

/-- trackUnacked does not touch the next expected receive sequence. -/
lemma trackUnacked_ri (c : Conn) : (trackUnacked c).ri = c.ri := rfl

/-- Claim C7: a duplicate reliable receive (the slot of the incoming
sequence already records it) leaves ri and every receive slot unchanged
and does not reach the packet handler. -/
theorem c7_duplicate_read_noop (c : Conn) (h : PacketHeader) (now : ℕ)
    (hu : h.unordered = false)
    (hdup : c.rq.getD (h.sequence % c.rq.length) 0 = h.sequence) :
    (Read c h now).1.ri = c.ri ∧ (Read c h now).1.rq = c.rq ∧ (Read c h now).2 = false := by
  have h1 : (readAckBits c h.ack h.ackBits).rq = c.rq := readAckBits_rq c _ _
  have h2 : (readAckBits c h.ack h.ackBits).ri = c.ri := readAckBits_ri c _ _
  have tr_eq : trackRead (readAckBits c h.ack h.ackBits) h.sequence
      = (readAckBits c h.ack h.ackBits, false) := by
    unfold trackRead
    dsimp only
    rw [h1, if_pos hdup]
  refine ⟨?_, ?_, ?_⟩ <;>
    · unfold Read
      dsimp only
      rw [hu]
      simp [tr_eq, h1, h2]

/-- Witness for C7 at a connection that already received sequence 3. -/
theorem c7_duplicate_read_noop_witness :
    (Read cD hDup 2).1.ri = cD.ri ∧ (Read cD hDup 2).1.rq = cD.rq ∧
      (Read cD hDup 2).2 = false :=
  c7_duplicate_read_noop cD hDup 2 (by decide) (by decide)

/-- Claim C10: a stale reliable receive (not a duplicate, and not after
ri in serial order) leaves ri unchanged, overwrites its receive slot
with the stale sequence, and still reaches the packet handler. -/
theorem c10_stale_reentry (c : Conn) (h : PacketHeader) (now : ℕ)
    (hu : h.unordered = false) (he : h.empty = false)
    (hnd : c.rq.getD (h.sequence % c.rq.length) 0 ≠ h.sequence)
    (hgt : seqGT (add16 h.sequence 1) c.ri = false) :
    (Read c h now).1.ri = c.ri ∧
    (Read c h now).1.rq = c.rq.set (h.sequence % c.rq.length) h.sequence ∧
    (Read c h now).2 = true := by
  have h1 : (readAckBits c h.ack h.ackBits).rq = c.rq := readAckBits_rq c _ _
  have h2 : (readAckBits c h.ack h.ackBits).ri = c.ri := readAckBits_ri c _ _
  have tr_eq : trackRead (readAckBits c h.ack h.ackBits) h.sequence
      = ({ readAckBits c h.ack h.ackBits with
            rq := c.rq.set (h.sequence % c.rq.length) h.sequence }, true) := by
    unfold trackRead
    dsimp only
    rw [h1, if_neg hnd, h2, if_neg (by simp [hgt])]
    simp [h1, h2]
  refine ⟨?_, ?_, ?_⟩ <;>
    · unfold Read
      dsimp only
      rw [hu]
      simp [tr_eq, h1, h2, ackLoop_ri, ackLoop_rq, writeAcksIfNecessary, trackUnacked_rq,
        trackUnacked_ri, he]

/-- Witness for C10: sequence 2 arrives while ri = 10 and is recorded
and delivered without moving ri. -/
theorem c10_stale_reentry_witness :
    (Read c10 hSt 2).1.ri = c10.ri ∧
      (Read c10 hSt 2).1.rq = c10.rq.set (hSt.sequence % c10.rq.length) hSt.sequence ∧
      (Read c10 hSt 2).2 = true :=
  c10_stale_reentry c10 hSt 2 (by decide) (by decide) (by decide) (by decide)

/-- Tracking a fresh sequence that does not advance wi installs it into
its send slot with a fresh unacked entry. -/
lemma trackWrite_fresh (c : Conn) (idx b now : ℕ)
    (hidx : seqGT (add16 idx 1) c.wi = false)
    (hw : 0 < c.wq.length) (hwe : c.wqe.length = c.wq.length) :
    (trackWrite c idx b now).wq.getD (idx % c.wq.length) 0 = idx ∧
    (trackWrite c idx b now).wqe.getD (idx % c.wq.length) emptyEntry = ⟨some b, false, now, 0⟩ := by
  have hi : idx % c.wq.length < c.wq.length := Nat.mod_lt idx hw
  unfold trackWrite
  dsimp only
  rw [if_neg (by simp [hidx])]
  constructor
  · rcases hb : (c.wqe.getD (idx % c.wq.length) emptyEntry).buf with _ | ob <;>
      simp [hb, List.getElem?_set, hi]
  · rcases hb : (c.wqe.getD (idx % c.wq.length) emptyEntry).buf with _ | ob <;>
      simp [hb, List.getElem?_set, hwe, hi]

/-- For a reliable (ordered) header whose sequence does not advance wi,
write reserves the send slot of the header sequence. -/
lemma write_reliable_slot (c : Conn) (h : PacketHeader) (now : ℕ)
    (hu : h.unordered = false)
    (hseq : seqGT (add16 h.sequence 1) c.wi = false)
    (hw : 0 < c.wq.length) (hwe : c.wqe.length = c.wq.length) :
    (write c h now).wq.getD (h.sequence % c.wq.length) 0 = h.sequence ∧
    (write c h now).wqe.getD (h.sequence % c.wq.length) emptyEntry
      = ⟨some c.nextBuf, false, now, 0⟩ := by
  unfold write
  dsimp only
  rw [hu]
  simp only [Bool.false_eq_true, if_false]
  exact trackWrite_fresh { c with nextBuf := c.nextBuf + 1 } h.sequence c.nextBuf now hseq hw hwe

/-- Claim C4 counterexample: a standalone ack does reserve a send slot.
On a connection one receipt short of a full ack window, the reliable
packet with sequence 31 completes the window; the Read call emits the
standalone ack with send sequence 0 and stores its buffer in send slot
0 (wq[0] = 0, wqe[0].buf = some 0), so the claim that no send slot is
reserved for the ack packet is false. -/
theorem c4_counterexample :
    ((Read cP hIn 7).1.wqe.getD 0 emptyEntry).buf = some 0 ∧
      (Read cP hIn 7).1.wq.getD 0 0 = 0 := by
  decide

/-- Claim C4 (amended): when the 32 sequences from lui are all recorded
and the connection is open, the standalone-ack step consumes send
sequence wi, builds the header with ack = lui + 31, fresh ack bits and
empty = true, advances lui by 32, stamps the send time, and the
subsequent write DOES reserve a send slot for the ack packet: slot
wi mod len(wq) records wi with the freshly written buffer. -/
theorem c4_standalone_ack_reserves_slot (c : Conn) (now : ℕ)
    (hf : windowFilled c.rq c.lui = true) (hd : c.die = false)
    (hw : 0 < c.wq.length) (hwe : c.wqe.length = c.wq.length) :
    (createAckIfNecessary c now).2.2 = true ∧
    (createAckIfNecessary c now).2.1 =
      ⟨c.wi, add16 c.lui 31, prepareAckBits c.rq (add16 c.lui 31), false, true⟩ ∧
    (createAckIfNecessary c now).1.lui = add16 c.lui 32 ∧
    (createAckIfNecessary c now).1.wi = add16 c.wi 1 ∧
    (createAckIfNecessary c now).1.ls = now ∧
    (write (createAckIfNecessary c now).1 (createAckIfNecessary c now).2.1 now).wq.getD
      (c.wi % c.wq.length) 0 = c.wi ∧
    (write (createAckIfNecessary c now).1 (createAckIfNecessary c now).2.1 now).wqe.getD
      (c.wi % c.wq.length) emptyEntry = ⟨some c.nextBuf, false, now, 0⟩ := by
  have hca : createAckIfNecessary c now
      = ({ c with lui := add16 c.lui 32, ls := now, wi := add16 c.wi 1 },
         ⟨c.wi, add16 c.lui 31, prepareAckBits c.rq (add16 c.lui 31), false, true⟩, true) := by
    unfold createAckIfNecessary
    rw [if_pos hf]
    dsimp only
    simp [hd, ACKBitsetSize, sub16_add16]
  rw [hca]
  have hslot := write_reliable_slot
    { c with lui := add16 c.lui 32, ls := now, wi := add16 c.wi 1 }
    ⟨c.wi, add16 c.lui 31, prepareAckBits c.rq (add16 c.lui 31), false, true⟩ now
    rfl (seqGT_self (add16 c.wi 1)) hw hwe
  exact ⟨rfl, rfl, rfl, rfl, rfl, hslot.1, hslot.2⟩

/-- Bit j of the prepareAckBits fold over range n: the bit of the
accumulator, or the slot test of j when j < n. -/
lemma prepAux (rq : List ℕ) (ack : ℕ) :
    ∀ (n acc j : ℕ), ((List.range n).foldl (prepStep rq ack) acc).testBit j
      = (acc.testBit j ||
          (decide (j < n) && decide (rq.getD (sub16 ack j % rq.length) 0 = sub16 ack j))) := by
  intro n
  induction n with
  | zero => intro acc j; simp
  | succ m ih =>
    intro acc j
    rw [List.range_succ, List.foldl_append]
    simp only [List.foldl_cons, List.foldl_nil]
    rw [show ∀ bits : ℕ, prepStep rq ack bits m
      = if rq.getD (sub16 ack m % rq.length) 0 = sub16 ack m then bits ||| (1 <<< m) else bits
      from fun bits => rfl]
    by_cases hc : rq.getD (sub16 ack m % rq.length) 0 = sub16 ack m
    · rw [if_pos hc, Nat.testBit_lor, ih, Nat.one_shiftLeft, Nat.testBit_two_pow]
      by_cases hj : j = m
      · subst hj
        simp [hc, Nat.lt_succ_self, -List.getD_eq_getElem?_getD]
      · have hmj : m ≠ j := fun hh => hj hh.symm
        have hlt : (j < m + 1) = (j < m) := by
          apply propext
          constructor <;> intro hx <;> omega
        simp [hmj, hlt]
    · rw [if_neg hc, ih]
      by_cases hj : j = m
      · subst hj
        simp [hc, -List.getD_eq_getElem?_getD]
      · have hlt : (j < m + 1) = (j < m) := by
          apply propext
          constructor <;> intro hx <;> omega
        simp [hlt]

/-- Claim C5: for every receive-window state and every ack, bit k of
prepareAckBits ack (0 ≤ k < 32) is 1 iff receive slot
(ack - k) mod len(rq) records ack - k; bits of unrecorded sequences are
0. -/
theorem c5_prepareAckBits_bits (rq : List ℕ) (ack k : ℕ) (hk : k < 32) :
    (prepareAckBits rq ack).testBit k = true
      ↔ rq.getD (sub16 ack k % rq.length) 0 = sub16 ack k := by
  unfold prepareAckBits ACKBitsetSize
  rw [prepAux]
  simp [hk]

/-- Witness for C5: bit 0 for ack = 3 on a window that recorded
sequence 3. -/
theorem c5_prepareAckBits_bits_witness :
    (prepareAckBits rqD 3).testBit 0 = true
      ↔ rqD.getD (sub16 3 0 % rqD.length) 0 = sub16 3 0 :=
  c5_prepareAckBits_bits rqD 3 0 (by decide)

/-- A step leaves an already-acked slot entry unchanged. -/
lemma readAckStep_entry_acked (a b : ℕ) (c : Conn) (k i : ℕ)
    (h : (c.wqe.getD i emptyEntry).acked = true) :
    (readAckStep a b c k).wqe.getD i emptyEntry = c.wqe.getD i emptyEntry := by
  unfold readAckStep
  dsimp only
  split
  · rfl
  split
  · rfl
  rename_i hbit hcond
  push_neg at hcond
  by_cases hij : sub16 a k % c.wq.length = i
  · exact absurd (hij ▸ h) hcond.2
  · split <;> exact getD_set_ne _ _ _ hij

/-- The fold leaves already-acked slot entries unchanged. -/
lemma readAckBits_entry_acked (a b : ℕ) :
    ∀ (l : List ℕ) (c : Conn) (i : ℕ), (c.wqe.getD i emptyEntry).acked = true →
      (l.foldl (readAckStep a b) c).wqe.getD i emptyEntry = c.wqe.getD i emptyEntry := by
  intro l
  induction l with
  | nil => intro c i h; rfl
  | cons x t ih =>
    intro c i h
    simp only [List.foldl_cons]
    rw [ih (readAckStep a b c x) i
          (by rw [readAckStep_entry_acked a b c x i h]; exact h),
        readAckStep_entry_acked a b c x i h]

/-- A step leaves slot i unchanged unless i is the matching slot of its
bit. -/
lemma readAckStep_entry_other (a b : ℕ) (c : Conn) (k i : ℕ)
    (h : i ≠ sub16 a k % c.wq.length ∨ c.wq.getD i 0 ≠ sub16 a k) :
    (readAckStep a b c k).wqe.getD i emptyEntry = c.wqe.getD i emptyEntry := by
  unfold readAckStep
  dsimp only
  split
  · rfl
  split
  · rfl
  rename_i hbit hcond
  push_neg at hcond
  by_cases hij : sub16 a k % c.wq.length = i
  · rcases h with h1 | h2
    · exact absurd hij.symm h1
    · exact absurd (hij ▸ hcond.1) h2
  · split <;> exact getD_set_ne _ _ _ hij

/-- The fold leaves slots matched by no set bit unchanged. -/
lemma readAckBits_entry_other (a b : ℕ) :
    ∀ (l : List ℕ) (c : Conn) (i : ℕ),
      (∀ k ∈ l, i ≠ sub16 a k % c.wq.length ∨ c.wq.getD i 0 ≠ sub16 a k) →
      (l.foldl (readAckStep a b) c).wqe.getD i emptyEntry = c.wqe.getD i emptyEntry := by
  intro l
  induction l with
  | nil => intro c i h; rfl
  | cons x t ih =>
    intro c i h
    simp only [List.foldl_cons]
    have hwq := readAckStep_wq a b c x
    rw [ih (readAckStep a b c x) i
          (fun k hk => by rw [hwq]; exact h k (List.mem_cons_of_mem x hk)),
        readAckStep_entry_other a b c x i (h x (List.mem_cons_self x t))]

/-- After the fold, every set bit whose slot still matched is acked. -/
lemma readAckBits_makes_acked (a b : ℕ) :
    ∀ (l : List ℕ) (c : Conn) (k : ℕ), k ∈ l → b.testBit k = true →
      c.wq.getD (sub16 a k % c.wq.length) 0 = sub16 a k →
      sub16 a k % c.wq.length < c.wqe.length →
      ((l.foldl (readAckStep a b) c).wqe.getD (sub16 a k % c.wq.length) emptyEntry).acked
        = true := by
  intro l
  induction l with
  | nil => intro c k hk; exact absurd hk (List.not_mem_nil k)
  | cons x t ih =>
    intro c k hk hbit hmatch hlen
    simp only [List.foldl_cons]
    rcases List.mem_cons.mp hk with hkx | hkt
    · subst hkx
      have hstep :
          ((readAckStep a b c k).wqe.getD (sub16 a k % c.wq.length) emptyEntry).acked
            = true := by
        unfold readAckStep
        dsimp only
        rw [if_neg (by simp [hbit])]
        by_cases hcond : c.wq.getD (sub16 a k % c.wq.length) 0 ≠ sub16 a k ∨
            (c.wqe.getD (sub16 a k % c.wq.length) emptyEntry).acked = true
        · rw [if_pos hcond]
          rcases hcond with h1 | h2
          · exact absurd hmatch h1
          · exact h2
        · rw [if_neg hcond]
          split <;> rw [getD_set_self _ _ _ _ hlen]
      rw [readAckBits_entry_acked a b t (readAckStep a b c k) _ hstep]
      exact hstep
    · have hwq := readAckStep_wq a b c x
      have h1 : (readAckStep a b c x).wq.getD
          (sub16 a k % (readAckStep a b c x).wq.length) 0 = sub16 a k := by
        rw [hwq]; exact hmatch
      have h2 : sub16 a k % (readAckStep a b c x).wq.length
          < (readAckStep a b c x).wqe.length := by
        rw [hwq, readAckStep_wqe_length]; exact hlen
      have h3 := ih (readAckStep a b c x) k hkt hbit h1 h2
      rw [hwq] at h3
      exact h3

/-- Any single ack-bit step is the identity on the fold result. -/
lemma readAckStep_id_after (a b : ℕ) (c : Conn) (k : ℕ) (hk : k < ACKBitsetSize) :
    readAckStep a b (readAckBits c a b) k = readAckBits c a b := by
  have hwq : (readAckBits c a b).wq = c.wq := readAckBits_wq c a b
  have hwl : (readAckBits c a b).wqe.length = c.wqe.length := readAckBits_wqe_length c a b
  unfold readAckStep
  dsimp only
  split
  · rfl
  rename_i hbit
  rw [hwq]
  split
  · rfl
  rename_i hcond
  push_neg at hcond
  by_cases hlen : sub16 a k % c.wq.length < c.wqe.length
  · exfalso
    have hbit2 : b.testBit k = true := by revert hbit; cases b.testBit k <;> simp
    have hack := readAckBits_makes_acked a b (List.range ACKBitsetSize) c k
      (List.mem_range.mpr hk) hbit2 hcond.1 hlen
    exact hcond.2 hack
  · have he : (readAckBits c a b).wqe.getD (sub16 a k % c.wq.length) emptyEntry
        = emptyEntry := List.getD_eq_default _ _ (by rw [hwl]; omega)
    rw [he]
    dsimp only [emptyEntry]
    rw [List.set_eq_of_length_le (by rw [hwl]; omega)]

/-- Claim C6: readAckBits is idempotent (applying the same (ack, bits)
twice equals once), and it leaves already-acked slots and slots matched
by no set bit with matching tag unchanged. -/
theorem c6_readAckBits_idempotent (c : Conn) (ack bits : ℕ) :
    readAckBits (readAckBits c ack bits) ack bits = readAckBits c ack bits ∧
    (∀ i, (c.wqe.getD i emptyEntry).acked = true →
      (readAckBits c ack bits).wqe.getD i emptyEntry = c.wqe.getD i emptyEntry) ∧
    (∀ i, (∀ k, k < ACKBitsetSize →
        i ≠ sub16 ack k % c.wq.length ∨ c.wq.getD i 0 ≠ sub16 ack k) →
      (readAckBits c ack bits).wqe.getD i emptyEntry = c.wqe.getD i emptyEntry) := by
  refine ⟨?_, ?_, ?_⟩
  · exact foldl_fixed _
      (fun k hk => readAckStep_id_after ack bits c k (List.mem_range.mp hk))
  · intro i h
    exact readAckBits_entry_acked ack bits (List.range ACKBitsetSize) c i h
  · intro i h
    exact readAckBits_entry_other ack bits (List.range ACKBitsetSize) c i
      (fun k hk => h k (List.mem_range.mp hk))

/-- Witness for C6 at a connection with one unacked and one acked live
entry: idempotence, the acked slot 1 unchanged, the unmatched slot 7
unchanged. -/
theorem c6_readAckBits_idempotent_witness :
    readAckBits (readAckBits cA 1 3) 1 3 = readAckBits cA 1 3 ∧
    (readAckBits cA 1 3).wqe.getD 1 emptyEntry = cA.wqe.getD 1 emptyEntry ∧
    (readAckBits cA 1 3).wqe.getD 7 emptyEntry = cA.wqe.getD 7 emptyEntry :=
  ⟨(c6_readAckBits_idempotent cA 1 3).1,
   (c6_readAckBits_idempotent cA 1 3).2.1 1 (by decide),
   (c6_readAckBits_idempotent cA 1 3).2.2 7 (by decide)⟩

/-- Modelled from the spec claim for C3: the ordering lui at most ack
taken in serial-number arithmetic (a at most b iff a = b or GT b a). -/
def serialLE (a b : ℕ) : Prop := a = b ∨ seqGT b a = true

instance (a b : ℕ) : Decidable (serialLE a b) := by
  unfold serialLE; infer_instance

/-- Modelled from the spec claim for C3: the trackAcked advance loop
with the serial comparator in place of the plain unsigned one. -/
def luiAdvanceSerial (rq : List ℕ) (ack : ℕ) : ℕ → ℕ → ℕ
  | lui, 0 => lui
  | lui, fuel + 1 =>
    if serialLE lui ack ∧ rq.getD (lui % rq.length) 0 = lui
    then luiAdvanceSerial rq ack (add16 lui 1) fuel else lui

/-- Modelled from the spec claim for C3: trackAcked as the claim reads
it, comparing lui to ack in serial-number arithmetic. -/
def trackAckedSerial (c : Conn) (ack now : ℕ) : Conn :=
  { c with lui := luiAdvanceSerial c.rq ack c.lui M, ls := now }

/-- Claim C3 counterexample: with lui = 65535 recorded in its receive
slot and ack wrapped to 0, serial-number arithmetic would advance lui
(to 0), but the code compares with plain unsigned 16-bit order
(65535 is not at most 0) and leaves lui at 65535. -/
theorem c3_counterexample :
    (trackAcked cC3 0 1).lui = 65535 ∧ (trackAckedSerial cC3 0 1).lui = 0 := by
  decide

/-- The advance loop of trackAcked advances exactly while its condition
holds: the result is lui + n for the first n whose condition fails
(within the given fuel). -/
lemma luiAdvance_spec (rq : List ℕ) (ack : ℕ) :
    ∀ (fuel lui : ℕ), lui < M →
      ∃ n, n ≤ fuel ∧ luiAdvance rq ack lui fuel = (lui + n) % M ∧
        (∀ m, m < n → ackCond rq ack ((lui + m) % M)) ∧
        (n < fuel → ¬ ackCond rq ack ((lui + n) % M)) := by
  intro fuel
  induction fuel with
  | zero =>
    intro lui hl
    exact ⟨0, le_rfl, by simp [luiAdvance, Nat.mod_eq_of_lt hl],
      fun m hm => absurd hm (Nat.not_lt_zero m),
      fun h => absurd h (Nat.lt_irrefl 0)⟩
  | succ f ih =>
    intro lui hl
    by_cases hc : ackCond rq ack lui
    · obtain ⟨n, hn, heq, hchain, hstop⟩ :=
        ih (add16 lui 1) (Nat.mod_lt _ (by norm_num [M]))
      refine ⟨n + 1, by omega, ?_, ?_, ?_⟩
      · rw [show luiAdvance rq ack lui (f + 1) = luiAdvance rq ack (add16 lui 1) f from by
            simp only [luiAdvance, if_pos hc]]
        rw [heq]
        unfold add16
        rw [Nat.mod_add_mod]
        congr 1
        omega
      · intro m hm
        cases m with
        | zero => simpa [Nat.mod_eq_of_lt hl] using hc
        | succ m2 =>
          have hm2 := hchain m2 (by omega)
          unfold add16 at hm2
          rw [Nat.mod_add_mod] at hm2
          rw [show lui + (m2 + 1) = lui + 1 + m2 from by omega]
          exact hm2
      · intro hlt
        have hs := hstop (by omega)
        unfold add16 at hs
        rw [Nat.mod_add_mod] at hs
        rw [show lui + (n + 1) = lui + 1 + n from by omega]
        exact hs
    · refine ⟨0, by omega, ?_, fun m hm => absurd hm (Nat.not_lt_zero m), fun _ => ?_⟩
      · rw [show luiAdvance rq ack lui (f + 1) = lui from by simp only [luiAdvance, if_neg hc]]
        simp [Nat.mod_eq_of_lt hl]
      · rw [Nat.add_zero, Nat.mod_eq_of_lt hl]
        exact hc

/-- The loop condition cannot hold for a full period of the sequence
space: slot 0 would have to record both 0 and len(rq). -/
lemma cond_gap (rq : List ℕ) (ack : ℕ) (h0 : 0 < rq.length) (hlt : rq.length < M)
    (lui : ℕ) (hl : lui < M) :
    ∃ m, m < M ∧ ¬ ackCond rq ack ((lui + m) % M) := by
  by_contra hcon
  push_neg at hcon
  have hM : 0 < M := by norm_num [M]
  have hl2 : lui < 65536 := hl
  have hlt2 : rq.length < 65536 := hlt
  have v0 : (lui + (M - lui) % M) % M = 0 := by
    show (lui + (65536 - lui) % 65536) % 65536 = 0
    omega
  have v1 : (lui + (M + rq.length - lui) % M) % M = rq.length := by
    show (lui + (65536 + rq.length - lui) % 65536) % 65536 = rq.length
    omega
  have c0 := hcon ((M - lui) % M) (Nat.mod_lt _ hM)
  have c1 := hcon ((M + rq.length - lui) % M) (Nat.mod_lt _ hM)
  rw [v0] at c0
  rw [v1] at c1
  unfold ackCond at c0 c1
  rw [Nat.zero_mod] at c0
  rw [Nat.mod_self] at c1
  omega

/-- Claim C3 (amended): trackAcked advances lui exactly as long as the
receive slot lui mod len(rq) records lui and lui is at most ack in
PLAIN unsigned 16-bit comparison (no advance across a wrapped ack), and
it updates the last-send timestamp. -/
theorem c3_trackAcked_plain (c : Conn) (ack now : ℕ)
    (h0 : 0 < c.rq.length) (hlt : c.rq.length < M) (hlui : c.lui < M) :
    ∃ n, (trackAcked c ack now).lui = (c.lui + n) % M ∧
      (∀ m, m < n → ackCond c.rq ack ((c.lui + m) % M)) ∧
      ¬ ackCond c.rq ack ((trackAcked c ack now).lui) ∧
      (trackAcked c ack now).ls = now := by
  obtain ⟨n, hn, heq, hchain, hstop⟩ := luiAdvance_spec c.rq ack M c.lui hlui
  have hne : n ≠ M := by
    intro hnm
    obtain ⟨m, hm, hnc⟩ := cond_gap c.rq ack h0 hlt c.lui hlui
    exact hnc (hchain m (by omega))
  have hstop2 := hstop (by omega)
  refine ⟨n, heq, hchain, ?_, rfl⟩
  rw [show (trackAcked c ack now).lui = (c.lui + n) % M from heq]
  exact hstop2

/-- Witness for C3 at a fresh connection: the loop stops immediately on
the empty receive window. -/
theorem c3_trackAcked_plain_witness :
    ∃ n, (trackAcked baseConn 5 9).lui = (baseConn.lui + n) % M ∧
      (∀ m, m < n → ackCond baseConn.rq 5 ((baseConn.lui + m) % M)) ∧
      ¬ ackCond baseConn.rq 5 ((trackAcked baseConn 5 9).lui) ∧
      (trackAcked baseConn 5 9).ls = 9 :=
  c3_trackAcked_plain baseConn 5 9 (by decide) (by decide) (by decide)

/-- Witness for C4 at a connection holding one full window of
receipts. -/
theorem c4_standalone_ack_reserves_slot_witness :
    (createAckIfNecessary cF 7).2.2 = true ∧
    (createAckIfNecessary cF 7).2.1 =
      ⟨cF.wi, add16 cF.lui 31, prepareAckBits cF.rq (add16 cF.lui 31), false, true⟩ ∧
    (createAckIfNecessary cF 7).1.lui = add16 cF.lui 32 ∧
    (createAckIfNecessary cF 7).1.wi = add16 cF.wi 1 ∧
    (createAckIfNecessary cF 7).1.ls = 7 ∧
    (write (createAckIfNecessary cF 7).1 (createAckIfNecessary cF 7).2.1 7).wq.getD
      (cF.wi % cF.wq.length) 0 = cF.wi ∧
    (write (createAckIfNecessary cF 7).1 (createAckIfNecessary cF 7).2.1 7).wqe.getD
      (cF.wi % cF.wq.length) emptyEntry = ⟨some cF.nextBuf, false, 7, 0⟩ :=
  c4_standalone_ack_reserves_slot cF 7 (by decide) (by decide) (by decide) (by decide)

end Reliable
